import Mathlib

/-!
Verification of the contract-invocation resolution layer
(`engine-core/src/engine_state/executable_deploy_item.rs`).

The deploy-item resolver is embedded shallowly: the `ExecutableDeployItem`
enum and its three operations (`to_contract_hash_key`, `into_runtime_args`,
`entry_point_name`) are translated directly from the Rust source.  External
collaborators that the source file imports from other crates (the
`bytesrepr` argument codec, the `Key` type, the `Account` with its named
keys, the `DEFAULT_ENTRY_POINT_NAME` constant and the error enums) are
modelled from the specification's description of their interfaces.
-/

namespace CasperLabs

/-- A byte string, one natural number per byte. -/
abbrev Bytes := List Nat

deriving instance DecidableEq for Except

namespace bytesrepr

/-- Modelled from the spec: the decode-error taxonomy of the external
serialization codec — truncated input, malformed content (for instance an
unrecognized type tag), and a trailing-bytes mismatch after a complete parse. -/
inductive Error where
  | EarlyEndOfStream
  | Formatting
  | LeftOverBytes
deriving DecidableEq

/-- A consuming byte parser: returns the parsed value and the remaining bytes. -/
abbrev P (α : Type) := Bytes → Except Error (α × Bytes)

/-- Parser that consumes nothing and returns `a`. -/
def ppure {α : Type} (a : α) : P α := fun bs => .ok (a, bs)

/-- Sequencing of byte parsers. -/
def pbind {α β : Type} (p : P α) (f : α → P β) : P β := fun bs =>
  match p bs with
  | .ok (a, rest) => f a rest
  | .error e => .error e

/-- Modelled from the spec: read exactly `n` raw bytes, failing with
`EarlyEndOfStream` when fewer are available. -/
def readBytesP (n : Nat) : P Bytes := fun bs =>
  if n ≤ bs.length then .ok (bs.take n, bs.drop n) else .error .EarlyEndOfStream

/-- Little-endian value of a byte string. -/
def leNum (bs : Bytes) : Nat :=
  match bs with
  | [] => 0
  | b :: rest => b + 256 * leNum rest

/-- Modelled from the spec: a 4-byte little-endian length/count prefix. -/
def readU32 : P Nat := pbind (readBytesP 4) (fun b => ppure (leNum b))

/-- Little-endian 4-byte encoding of `n` (its value modulo `2 ^ 32`). -/
def encU32 (n : Nat) : Bytes :=
  [n % 256, n / 256 % 256, n / 65536 % 256, n / 16777216 % 256]

/-- Bytes viewed as a string, one character per byte. -/
def bytesToString (bs : Bytes) : String := String.mk (bs.map Char.ofNat)

/-- Modelled from the spec: a length-prefixed argument name. -/
def readStringP : P String :=
  pbind readU32 (fun n => pbind (readBytesP n) (fun b => ppure (bytesToString b)))

/-- Modelled from the spec: the closed set of recognized value-type tags of
the argument codec. -/
inductive CLType where
  | bool
  | i32
  | i64
  | u8
  | u32
  | u64
  | u128
  | u256
  | u512
  | unit
  | string
  | key
  | uref
deriving DecidableEq

/-- Tag byte of each recognized value type; every other tag is unrecognized. -/
def decodeTag (t : Nat) : Option CLType :=
  match t with
  | 0 => some .bool
  | 1 => some .i32
  | 2 => some .i64
  | 3 => some .u8
  | 4 => some .u32
  | 5 => some .u64
  | 6 => some .u128
  | 7 => some .u256
  | 8 => some .u512
  | 9 => some .unit
  | 10 => some .string
  | 11 => some .key
  | 12 => some .uref
  | _ => none

/-- Modelled from the spec: a typed argument value — its declared type and
its serialized payload. -/
structure CLValue where
  cl_type : CLType
  bytes : Bytes
deriving DecidableEq

/-- Modelled from the spec: an ordered mapping from argument name to typed
value, produced only by decoding. -/
abbrev RuntimeArgs := List (String × CLValue)

/-- Read a value-type tag byte; an unrecognized tag is a `Formatting` error. -/
def readCLType : P CLType := fun bs =>
  match bs with
  | [] => .error .EarlyEndOfStream
  | t :: rest =>
    match decodeTag t with
    | some ty => .ok (ty, rest)
    | none => .error .Formatting

/-- Modelled from the spec: a typed value — length-prefixed payload followed
by its declared type tag. -/
def readCLValue : P CLValue :=
  pbind readU32 (fun n => pbind (readBytesP n) (fun b =>
    pbind readCLType (fun ty => ppure ⟨ty, b⟩)))

/-- One named argument: a name then a typed value. -/
def readNamedArg : P (String × CLValue) :=
  pbind readStringP (fun nm => pbind readCLValue (fun v => ppure (nm, v)))

/-- Read exactly `n` items with parser `p`. -/
def readCount {α : Type} (n : Nat) (p : P α) : P (List α) :=
  match n with
  | 0 => ppure []
  | Nat.succ k => pbind p (fun a => pbind (readCount k p) (fun as => ppure (a :: as)))

/-- Modelled from the spec: the wire form of an argument mapping — a 4-byte
count followed by that many named arguments. -/
def fromBytes : P RuntimeArgs := pbind readU32 (fun n => readCount n readNamedArg)

/-- Modelled from the spec: `decode(bytes) -> Result<RuntimeArgs, DecodeError>`.
A complete parse must consume the whole input; leftover bytes are a
`LeftOverBytes` error. -/
def deserialize (bs : Bytes) : Except Error RuntimeArgs :=
  match fromBytes bs with
  | .ok (v, []) => .ok v
  | .ok (_, _ :: _) => .error .LeftOverBytes
  | .error e => .error e

/-- A parser's success depends only on the bytes it consumes: having
consumed `c` and left `rest`, it behaves the same on `c` followed by any
other continuation. -/
def PFrame {α : Type} (p : P α) : Prop :=
  ∀ c rest v, p (c ++ rest) = .ok (v, rest) → ∀ X, p (c ++ X) = .ok (v, X)

/-- A successful parse returns a suffix of its input. -/
def PSuffixRet {α : Type} (p : P α) : Prop :=
  ∀ bs v rest, p bs = .ok (v, rest) → ∃ c, bs = c ++ rest

/-- Cutting the input anywhere strictly inside the consumed part makes the
parse fail with `EarlyEndOfStream`. -/
def PTrunc {α : Type} (p : P α) : Prop :=
  ∀ c rest v, p (c ++ rest) = .ok (v, rest) → ∀ k, k < c.length →
    p (c.take k) = .error .EarlyEndOfStream

/-- The structural parser properties used to analyse malformed input. -/
structure PGood {α : Type} (p : P α) : Prop where
  frame : PFrame p
  suff : PSuffixRet p
  trunc : PTrunc p

end bytesrepr

/-- Modelled from the spec: an addressable reference, polymorphic over the
capability set — only the `hash` kind denotes a contract-code address. -/
inductive Key where
  | account (addr : Bytes)
  | hash (addr : Bytes)
  | uref (addr : Bytes) (access : Nat)
deriving DecidableEq

/-- Fixed-width hash naming one immutable contract. -/
abbrev ContractHash := Bytes

/-- Fixed-width hash naming a versioned contract package. -/
abbrev ContractPackageHash := Bytes

/-- A contract-package version number. -/
abbrev ContractVersion := Nat

/-- Modelled from the spec: the account capability table, an ordered mapping
from name to `Key`, unique per name. -/
abbrev NamedKeys := List (String × Key)

/-- Modelled from the spec: `get(name) -> Option<Key>`, a read-only lookup
with no implicit creation and no fallback search. -/
def NamedKeys.get (m : NamedKeys) (n : String) : Option Key :=
  match m with
  | [] => none
  | (k, v) :: rest => if k = n then some v else NamedKeys.get rest n

/-- State-passing form of the table lookup: the looked-up value together
with the table it leaves behind. -/
def NamedKeys.getS (m : NamedKeys) (n : String) : Option Key × NamedKeys :=
  (NamedKeys.get m n, m)

/-- Modelled from the spec: the account context, owner of its capability
table of named keys. -/
structure Account where
  named_keys : NamedKeys
deriving DecidableEq

namespace execution

/-- Modelled from the spec: execution-level errors raised during resolution. -/
inductive Error where
  | NamedKeyNotFound (name : String)
deriving DecidableEq

end execution

namespace error

/-- Modelled from the spec: the engine-state error type wrapping execution
errors. -/
inductive Error where
  | Exec (e : execution.Error)
deriving DecidableEq

end error

/-- Modelled from the spec: the reserved "implicit call" entry-point
identifier (a constant of the external types crate). -/
def DEFAULT_ENTRY_POINT_NAME : String := "call"

/-- The six-variant deploy-item union, translated from the Rust enum
`ExecutableDeployItem`. -/
inductive ExecutableDeployItem where
  | ModuleBytes (module_bytes : Bytes) (args : Bytes)
  | StoredContractByHash (hash : ContractHash) (entry_point : String) (args : Bytes)
  | StoredContractByName (name : String) (entry_point : String) (args : Bytes)
  | StoredVersionedContractByName (name : String) (version : Option ContractVersion)
      (entry_point : String) (args : Bytes)
  | StoredVersionedContractByHash (hash : ContractPackageHash) (version : Option ContractVersion)
      (entry_point : String) (args : Bytes)
  | TransferToAccount (args : Bytes)
deriving DecidableEq

namespace ExecutableDeployItem

/-- The raw argument bytes carried by a deploy item (every variant has them). -/
def argsOf (item : ExecutableDeployItem) : Bytes :=
  match item with
  | .ModuleBytes _ args => args
  | .StoredContractByHash _ _ args => args
  | .StoredContractByName _ _ args => args
  | .StoredVersionedContractByName _ _ _ args => args
  | .StoredVersionedContractByHash _ _ _ args => args
  | .TransferToAccount args => args

/-- The optional package version carried by the versioned variants. -/
def versionOf (item : ExecutableDeployItem) : Option ContractVersion :=
  match item with
  | .StoredVersionedContractByName _ version _ _ => version
  | .StoredVersionedContractByHash _ version _ _ => version
  | _ => none

/-- Translated from `ExecutableDeployItem::to_contract_hash_key`.  The Rust
match has arms for five of the six variants only: there is no arm for
`TransferToAccount`, so the match is non-exhaustive.  The missing arm is
modelled by the outer `Option`: `none` means the match is stuck (no arm
applies), `some r` is the result `r` of the arm that ran. -/
def to_contract_hash_key (item : ExecutableDeployItem) (account : Account) :
    Option (Except error.Error (Option Key)) :=
  match item with
  | .StoredContractByHash hash _ _ => some (.ok (some (Key.hash hash)))
  | .StoredVersionedContractByHash hash _ _ _ => some (.ok (some (Key.hash hash)))
  | .StoredContractByName name _ _ =>
    match NamedKeys.get account.named_keys name with
    | some key => some (.ok (some key))
    | none => some (.error (.Exec (.NamedKeyNotFound name)))
  | .StoredVersionedContractByName name _ _ _ =>
    match NamedKeys.get account.named_keys name with
    | some key => some (.ok (some key))
    | none => some (.error (.Exec (.NamedKeyNotFound name)))
  | .ModuleBytes _ _ => some (.ok none)
  | .TransferToAccount _ => none

/-- State-passing form of `to_contract_hash_key`: the account is threaded
through the one table access the source performs
(`account.named_keys().get(name).cloned()`), making any mutation of the
account observable in the second component. -/
def to_contract_hash_keyS (item : ExecutableDeployItem) (account : Account) :
    Option (Except error.Error (Option Key)) × Account :=
  match item with
  | .StoredContractByHash hash _ _ => (some (.ok (some (Key.hash hash))), account)
  | .StoredVersionedContractByHash hash _ _ _ => (some (.ok (some (Key.hash hash))), account)
  | .StoredContractByName name _ _ =>
    match NamedKeys.getS account.named_keys name with
    | (some key, nk) => (some (.ok (some key)), { account with named_keys := nk })
    | (none, nk) => (some (.error (.Exec (.NamedKeyNotFound name))), { account with named_keys := nk })
  | .StoredVersionedContractByName name _ _ _ =>
    match NamedKeys.getS account.named_keys name with
    | (some key, nk) => (some (.ok (some key)), { account with named_keys := nk })
    | (none, nk) => (some (.error (.Exec (.NamedKeyNotFound name))), { account with named_keys := nk })
  | .ModuleBytes _ _ => (some (.ok none), account)
  | .TransferToAccount _ => (none, account)

/-- Translated from `ExecutableDeployItem::into_runtime_args`: every variant
hands its raw argument bytes to `bytesrepr::deserialize`. -/
def into_runtime_args (item : ExecutableDeployItem) :
    Except bytesrepr.Error bytesrepr.RuntimeArgs :=
  match item with
  | .ModuleBytes _ args => bytesrepr.deserialize args
  | .StoredContractByHash _ _ args => bytesrepr.deserialize args
  | .StoredContractByName _ _ args => bytesrepr.deserialize args
  | .StoredVersionedContractByHash _ _ _ args => bytesrepr.deserialize args
  | .StoredVersionedContractByName _ _ _ args => bytesrepr.deserialize args
  | .TransferToAccount args => bytesrepr.deserialize args

/-- Translated from `ExecutableDeployItem::entry_point_name`. -/
def entry_point_name (item : ExecutableDeployItem) : String :=
  match item with
  | .ModuleBytes _ _ => DEFAULT_ENTRY_POINT_NAME
  | .TransferToAccount _ => DEFAULT_ENTRY_POINT_NAME
  | .StoredVersionedContractByName _ _ entry_point _ => entry_point
  | .StoredVersionedContractByHash _ _ entry_point _ => entry_point
  | .StoredContractByHash _ entry_point _ => entry_point
  | .StoredContractByName _ entry_point _ => entry_point

end ExecutableDeployItem

/-- The resolver pipeline for one deploy in state-passing form: code-address
resolution, entry-point selection and argument decoding, threading the
account state through. -/
def resolveS (item : ExecutableDeployItem) (account : Account) :
    (Option (Except error.Error (Option Key)) × String ×
      Except bytesrepr.Error bytesrepr.RuntimeArgs) × Account :=
  (((ExecutableDeployItem.to_contract_hash_keyS item account).1,
    ExecutableDeployItem.entry_point_name item,
    ExecutableDeployItem.into_runtime_args item),
   (ExecutableDeployItem.to_contract_hash_keyS item account).2)

/-- The state-passing resolver returns the account it was given. -/
theorem to_contract_hash_keyS_account (item : ExecutableDeployItem) (account : Account) :
    (ExecutableDeployItem.to_contract_hash_keyS item account).2 = account := by
  cases item <;>
    simp [ExecutableDeployItem.to_contract_hash_keyS, NamedKeys.getS] <;>
    split <;> rename_i heq <;> simp only [Prod.mk.injEq] at heq <;> rw [← heq.2]

/-- The state-passing resolver computes the same result as the source's
`to_contract_hash_key`. -/
theorem to_contract_hash_keyS_fst (item : ExecutableDeployItem) (account : Account) :
    (ExecutableDeployItem.to_contract_hash_keyS item account).1 =
      ExecutableDeployItem.to_contract_hash_key item account := by
  cases item <;>
    simp [ExecutableDeployItem.to_contract_hash_keyS,
      ExecutableDeployItem.to_contract_hash_key, NamedKeys.getS] <;>
    split <;> rename_i heq <;> simp only [Prod.mk.injEq] at heq <;> rw [heq.1]

/-- Every variant decodes its argument bytes with the one codec entry point. -/
theorem into_runtime_args_deserialize (item : ExecutableDeployItem) :
    ExecutableDeployItem.into_runtime_args item =
      bytesrepr.deserialize (ExecutableDeployItem.argsOf item) := by
  cases item <;> rfl

namespace bytesrepr

/-- Taking the length of the left part of an append returns that part. -/
theorem take_len_append (c X : Bytes) : (c ++ X).take c.length = c := by simp

/-- Dropping the length of the left part of an append returns the right part. -/
theorem drop_len_append (c X : Bytes) : (c ++ X).drop c.length = X := by simp

/-- A take that stays within the left part of an append ignores the right part. -/
theorem take_append_le (c X : Bytes) (k : Nat) (hk : k ≤ c.length) :
    (c ++ X).take k = c.take k := by
  rw [List.take_append_eq_append_take]
  simp [Nat.sub_eq_zero_of_le hk]

/-- A take that covers the left part of an append keeps it whole. -/
theorem take_append_ge (c X : Bytes) (k : Nat) (hk : c.length ≤ k) :
    (c ++ X).take k = c ++ X.take (k - c.length) := by
  rw [List.take_append_eq_append_take, List.take_of_length_le hk]

/-- Inversion of a successful `pbind` parse. -/
theorem pbind_ok {α β : Type} {p : P α} {f : α → P β} {bs : Bytes} {v : β} {rest : Bytes}
    (h : pbind p f bs = .ok (v, rest)) :
    ∃ a mid, p bs = .ok (a, mid) ∧ f a mid = .ok (v, rest) := by
  unfold pbind at h
  cases hp : p bs with
  | ok pr =>
    obtain ⟨a, mid⟩ := pr
    rw [hp] at h
    exact ⟨a, mid, rfl, h⟩
  | error e =>
    rw [hp] at h
    simp at h

/-- `pbind` steps into its continuation on a successful first parse. -/
theorem pbind_ok_eq {α β : Type} {p : P α} {f : α → P β} {bs : Bytes} {a : α} {mid : Bytes}
    (h : p bs = .ok (a, mid)) : pbind p f bs = f a mid := by
  unfold pbind; rw [h]

/-- `pbind` propagates an error of its first parser. -/
theorem pbind_error_eq {α β : Type} {p : P α} {f : α → P β} {bs : Bytes} {e : Error}
    (h : p bs = .error e) : pbind p f bs = .error e := by
  unfold pbind; rw [h]

/-- `ppure` consumes nothing and satisfies the structural properties. -/
theorem ppure_good {α : Type} (a : α) : PGood (ppure a) := by
  constructor
  · intro c rest v h X
    simp only [ppure, Except.ok.injEq, Prod.mk.injEq] at h
    obtain ⟨ha, hc⟩ := h
    have hcl : c = [] := by
      have hl := congrArg List.length hc
      rw [List.length_append] at hl
      exact List.length_eq_zero.mp (by omega)
    subst hcl ha
    rfl
  · intro bs v rest h
    simp only [ppure, Except.ok.injEq, Prod.mk.injEq] at h
    exact ⟨[], by rw [h.2, List.nil_append]⟩
  · intro c rest v h k hk
    simp only [ppure, Except.ok.injEq, Prod.mk.injEq] at h
    have hcl : c = [] := by
      have hl := congrArg List.length h.2
      rw [List.length_append] at hl
      exact List.length_eq_zero.mp (by omega)
    subst hcl
    exact absurd hk (by simp)

/-- Sequencing preserves the structural parser properties. -/
theorem pbind_good {α β : Type} {p : P α} {f : α → P β}
    (hp : PGood p) (hf : ∀ a, PGood (f a)) : PGood (pbind p f) := by
  constructor
  · intro c rest v h X
    obtain ⟨a, mid, h1, h2⟩ := pbind_ok h
    obtain ⟨c₁, hc1⟩ := hp.suff _ _ _ h1
    obtain ⟨c₂, hc2⟩ := (hf a).suff _ _ _ h2
    have hc : c = c₁ ++ c₂ := by
      have hca : c ++ rest = (c₁ ++ c₂) ++ rest := by rw [hc1, hc2, List.append_assoc]
      exact List.append_cancel_right hca
    subst hc
    have h1' : p (c₁ ++ mid) = .ok (a, mid) := by rw [← hc1]; exact h1
    have h2' : f a (c₂ ++ rest) = .ok (v, rest) := by rw [← hc2]; exact h2
    have hfr1 := hp.frame _ _ _ h1' (c₂ ++ X)
    have hfr2 := (hf a).frame _ _ _ h2' X
    rw [List.append_assoc, pbind_ok_eq hfr1]
    exact hfr2
  · intro bs v rest h
    obtain ⟨a, mid, h1, h2⟩ := pbind_ok h
    obtain ⟨c₁, hc1⟩ := hp.suff _ _ _ h1
    obtain ⟨c₂, hc2⟩ := (hf a).suff _ _ _ h2
    exact ⟨c₁ ++ c₂, by rw [hc1, hc2, List.append_assoc]⟩
  · intro c rest v h k hk
    obtain ⟨a, mid, h1, h2⟩ := pbind_ok h
    obtain ⟨c₁, hc1⟩ := hp.suff _ _ _ h1
    obtain ⟨c₂, hc2⟩ := (hf a).suff _ _ _ h2
    have hc : c = c₁ ++ c₂ := by
      have hca : c ++ rest = (c₁ ++ c₂) ++ rest := by rw [hc1, hc2, List.append_assoc]
      exact List.append_cancel_right hca
    subst hc
    have h1' : p (c₁ ++ (c₂ ++ rest)) = .ok (a, c₂ ++ rest) := by
      rw [← List.append_assoc]
      rw [hc2] at h1
      exact h1
    have h2' : f a (c₂ ++ rest) = .ok (v, rest) := by rw [← hc2]; exact h2
    rw [List.length_append] at hk
    by_cases hk1 : k < c₁.length
    · rw [take_append_le _ _ _ (le_of_lt hk1)]
      have hpre : p (c₁ ++ (c₂ ++ rest)) = .ok (a, c₂ ++ rest) := h1'
      have ht := hp.trunc _ _ _ hpre k hk1
      exact pbind_error_eq ht
    · push_neg at hk1
      rw [take_append_ge _ _ _ hk1]
      have hfr := hp.frame _ _ _ h1' (c₂.take (k - c₁.length))
      rw [pbind_ok_eq hfr]
      exact (hf a).trunc _ _ _ h2' _ (by omega)

/-- `readBytesP` satisfies the structural parser properties. -/
theorem readBytesP_good (n : Nat) : PGood (readBytesP n) := by
  constructor
  · intro c rest v h X
    unfold readBytesP at h ⊢
    by_cases hle : n ≤ (c ++ rest).length
    · rw [if_pos hle] at h
      simp only [Except.ok.injEq, Prod.mk.injEq] at h
      have hdl : ((c ++ rest).drop n).length = rest.length := by rw [h.2]
      rw [List.length_drop, List.length_append] at hdl
      rw [List.length_append] at hle
      have hn : n = c.length := by omega
      subst hn
      rw [if_pos (by rw [List.length_append]; omega)]
      rw [take_len_append, drop_len_append]
      have hv : v = c := by rw [← h.1, take_len_append]
      rw [hv]
    · rw [if_neg hle] at h
      simp at h
  · intro bs v rest h
    unfold readBytesP at h
    by_cases hle : n ≤ bs.length
    · rw [if_pos hle] at h
      simp only [Except.ok.injEq, Prod.mk.injEq] at h
      exact ⟨bs.take n, by rw [← h.2]; exact (List.take_append_drop n bs).symm⟩
    · rw [if_neg hle] at h
      simp at h
  · intro c rest v h k hk
    unfold readBytesP at h ⊢
    by_cases hle : n ≤ (c ++ rest).length
    · rw [if_pos hle] at h
      simp only [Except.ok.injEq, Prod.mk.injEq] at h
      have hdl : ((c ++ rest).drop n).length = rest.length := by rw [h.2]
      rw [List.length_drop, List.length_append] at hdl
      rw [List.length_append] at hle
      have hn : n = c.length := by omega
      subst hn
      rw [if_neg (by rw [List.length_take]; omega)]
    · rw [if_neg hle] at h
      simp at h

/-- `readCLType` satisfies the structural parser properties. -/
theorem readCLType_good : PGood readCLType := by
  constructor
  · intro c rest v h X
    cases c with
    | nil =>
      exfalso
      cases rest with
      | nil => simp [readCLType] at h
      | cons t r =>
        simp only [List.nil_append, readCLType] at h
        split at h
        · simp only [Except.ok.injEq, Prod.mk.injEq] at h
          have hl := congrArg List.length h.2
          simp only [List.length_cons] at hl
          omega
        · simp at h
    | cons t c' =>
      simp only [List.cons_append, readCLType] at h ⊢
      split at h
      · rename_i ty hd
        simp only [Except.ok.injEq, Prod.mk.injEq] at h
        have hc' : c' = [] := by
          have hl := congrArg List.length h.2
          rw [List.length_append] at hl
          exact List.length_eq_zero.mp (by omega)
        subst hc'
        simp [h.1]
      · simp at h
  · intro bs v rest h
    cases bs with
    | nil => simp [readCLType] at h
    | cons t r =>
      simp only [readCLType] at h
      split at h
      · simp only [Except.ok.injEq, Prod.mk.injEq] at h
        exact ⟨[t], by rw [← h.2, List.singleton_append]⟩
      · simp at h
  · intro c rest v h k hk
    cases c with
    | nil => exact absurd hk (by simp)
    | cons t c' =>
      simp only [List.cons_append, readCLType] at h
      split at h
      · simp only [Except.ok.injEq, Prod.mk.injEq] at h
        have hc' : c' = [] := by
          have hl := congrArg List.length h.2
          rw [List.length_append] at hl
          exact List.length_eq_zero.mp (by omega)
        subst hc'
        have hk0 : k = 0 := by simp at hk; omega
        subst hk0
        rfl
      · simp at h

/-- `readU32` satisfies the structural parser properties. -/
theorem readU32_good : PGood readU32 :=
  pbind_good (readBytesP_good 4) (fun b => ppure_good (leNum b))

/-- `readStringP` satisfies the structural parser properties. -/
theorem readStringP_good : PGood readStringP :=
  pbind_good readU32_good (fun n =>
    pbind_good (readBytesP_good n) (fun b => ppure_good (bytesToString b)))

/-- `readCLValue` satisfies the structural parser properties. -/
theorem readCLValue_good : PGood readCLValue :=
  pbind_good readU32_good (fun n =>
    pbind_good (readBytesP_good n) (fun b =>
      pbind_good readCLType_good (fun ty => ppure_good ⟨ty, b⟩)))

/-- `readNamedArg` satisfies the structural parser properties. -/
theorem readNamedArg_good : PGood readNamedArg :=
  pbind_good readStringP_good (fun nm =>
    pbind_good readCLValue_good (fun v => ppure_good (nm, v)))

/-- Reading a fixed count of items preserves the structural properties. -/
theorem readCount_good {α : Type} (p : P α) (hp : PGood p) (n : Nat) :
    PGood (readCount n p) := by
  induction n with
  | zero => exact ppure_good []
  | succ k ih => exact pbind_good hp (fun a => pbind_good ih (fun as => ppure_good (a :: as)))

/-- `fromBytes` satisfies the structural parser properties. -/
theorem fromBytes_good : PGood fromBytes :=
  pbind_good readU32_good (fun n => readCount_good readNamedArg readNamedArg_good n)

/-- Truncating a well-formed argument payload anywhere makes decoding fail
with `EarlyEndOfStream`. -/
theorem deserialize_truncated (full : Bytes) (v : RuntimeArgs)
    (h : fromBytes full = .ok (v, [])) (k : Nat) (hk : k < full.length) :
    deserialize (full.take k) = .error .EarlyEndOfStream := by
  have h' : fromBytes (full ++ []) = .ok (v, []) := by rw [List.append_nil]; exact h
  have ht := fromBytes_good.trunc full [] v h' k (by simpa using hk)
  unfold deserialize
  rw [ht]

/-- Trailing bytes after a well-formed argument payload make decoding fail
with `LeftOverBytes`. -/
theorem deserialize_leftover (good extra : Bytes) (v : RuntimeArgs)
    (h : fromBytes good = .ok (v, [])) (hx : extra ≠ []) :
    deserialize (good ++ extra) = .error .LeftOverBytes := by
  have h' : fromBytes (good ++ []) = .ok (v, []) := by rw [List.append_nil]; exact h
  have hfr := fromBytes_good.frame good [] v h' extra
  unfold deserialize
  rw [hfr]
  cases extra with
  | nil => exact absurd rfl hx
  | cons a b => rfl

/-- `leNum` inverts the little-endian encoding below `2 ^ 32`. -/
theorem leNum_encU32 (n : Nat) (h : n < 4294967296) : leNum (encU32 n) = n := by
  simp only [encU32, leNum]
  omega

/-- `readBytesP` reads back an exact-length chunk and leaves the rest. -/
theorem readBytesP_exact (c X : Bytes) : readBytesP c.length (c ++ X) = .ok (c, X) := by
  unfold readBytesP
  rw [if_pos (by rw [List.length_append]; omega)]
  rw [take_len_append, drop_len_append]

/-- `readU32` reads back an encoded 32-bit count and leaves the rest. -/
theorem readU32_enc (n : Nat) (h : n < 4294967296) (X : Bytes) :
    readU32 (encU32 n ++ X) = .ok (n, X) := by
  have hb : readBytesP 4 (encU32 n ++ X) = .ok (encU32 n, X) := by
    have henc : (encU32 n).length = 4 := rfl
    rw [← henc]
    exact readBytesP_exact (encU32 n) X
  have h1 : readU32 (encU32 n ++ X) = ppure (leNum (encU32 n)) X := pbind_ok_eq hb
  rw [h1]
  unfold ppure
  rw [leNum_encU32 n h]

/-- `readStringP` reads back an encoded name and leaves the rest. -/
theorem readStringP_enc (nm X : Bytes) (h : nm.length < 4294967296) :
    readStringP (encU32 nm.length ++ (nm ++ X)) = .ok (bytesToString nm, X) := by
  have h1 : readStringP (encU32 nm.length ++ (nm ++ X)) =
      pbind (readBytesP nm.length) (fun b => ppure (bytesToString b)) (nm ++ X) :=
    pbind_ok_eq (readU32_enc nm.length h (nm ++ X))
  have h2 : pbind (readBytesP nm.length) (fun b => ppure (bytesToString b)) (nm ++ X) =
      ppure (bytesToString nm) X :=
    pbind_ok_eq (readBytesP_exact nm X)
  exact (h1.trans h2)

/-- An unrecognized type tag makes `readCLType` fail with `Formatting`. -/
theorem readCLType_badtag (t : Nat) (tail : Bytes) (ht : decodeTag t = none) :
    readCLType (t :: tail) = .error .Formatting := by
  simp [readCLType, ht]

/-- An unrecognized type tag makes `readCLValue` fail with `Formatting`. -/
theorem readCLValue_badtag (payload : Bytes) (t : Nat) (tail : Bytes)
    (hp : payload.length < 4294967296) (ht : decodeTag t = none) :
    readCLValue (encU32 payload.length ++ (payload ++ t :: tail)) = .error .Formatting := by
  have h1 : readCLValue (encU32 payload.length ++ (payload ++ t :: tail)) =
      pbind (readBytesP payload.length)
        (fun b => pbind readCLType (fun ty => ppure (⟨ty, b⟩ : CLValue)))
        (payload ++ t :: tail) :=
    pbind_ok_eq (readU32_enc payload.length hp (payload ++ t :: tail))
  have h2 : pbind (readBytesP payload.length)
      (fun b => pbind readCLType (fun ty => ppure (⟨ty, b⟩ : CLValue)))
      (payload ++ t :: tail) =
      pbind readCLType (fun ty => ppure (⟨ty, payload⟩ : CLValue)) (t :: tail) :=
    pbind_ok_eq (readBytesP_exact payload (t :: tail))
  have h3 : pbind readCLType (fun ty => ppure (⟨ty, payload⟩ : CLValue)) (t :: tail) =
      .error .Formatting :=
    pbind_error_eq (readCLType_badtag t tail ht)
  exact (h1.trans (h2.trans h3))

/-- An unrecognized type tag makes `readNamedArg` fail with `Formatting`. -/
theorem readNamedArg_badtag (nm payload : Bytes) (t : Nat) (tail : Bytes)
    (hn : nm.length < 4294967296) (hp : payload.length < 4294967296)
    (ht : decodeTag t = none) :
    readNamedArg (encU32 nm.length ++ (nm ++ (encU32 payload.length ++ (payload ++ t :: tail)))) =
      .error .Formatting := by
  have h1 : readNamedArg
        (encU32 nm.length ++ (nm ++ (encU32 payload.length ++ (payload ++ t :: tail)))) =
      pbind readCLValue (fun v => ppure (bytesToString nm, v))
        (encU32 payload.length ++ (payload ++ t :: tail)) :=
    pbind_ok_eq (readStringP_enc nm (encU32 payload.length ++ (payload ++ t :: tail)) hn)
  have h2 : pbind readCLValue (fun v => ppure (bytesToString nm, v))
        (encU32 payload.length ++ (payload ++ t :: tail)) = .error .Formatting :=
    pbind_error_eq (readCLValue_badtag payload t tail hp ht)
  exact (h1.trans h2)

/-- A one-argument payload whose value carries an unrecognized type tag
fails to decode with `Formatting`. -/
theorem deserialize_badtag (nm payload : Bytes) (t : Nat) (tail : Bytes)
    (hn : nm.length < 4294967296) (hp : payload.length < 4294967296)
    (ht : decodeTag t = none) :
    deserialize (encU32 1 ++ (encU32 nm.length ++ (nm ++
      (encU32 payload.length ++ (payload ++ t :: tail))))) = .error .Formatting := by
  have h1 : fromBytes (encU32 1 ++ (encU32 nm.length ++ (nm ++
        (encU32 payload.length ++ (payload ++ t :: tail))))) =
      readCount 1 readNamedArg (encU32 nm.length ++ (nm ++
        (encU32 payload.length ++ (payload ++ t :: tail)))) :=
    pbind_ok_eq (readU32_enc 1 (by norm_num) _)
  have h2 : readCount 1 readNamedArg (encU32 nm.length ++ (nm ++
        (encU32 payload.length ++ (payload ++ t :: tail)))) = .error .Formatting :=
    pbind_error_eq (readNamedArg_badtag nm payload t tail hn hp ht)
  unfold deserialize
  rw [h1.trans h2]

end bytesrepr

/-- Claim C1: the spec says `to_contract_hash_key` returns `Ok(None)` for
both `ModuleBytes` and `TransferToAccount`.  The `ModuleBytes` arm does
return `Ok(None)`, but the source match has no `TransferToAccount` arm at
all (the match is non-exhaustive), modelled here by the stuck result
`none` instead of `some (Except.ok none)`. -/
theorem moduleBytes_ok_none_transfer_missing_arm :
    (∀ (mb args : Bytes) (account : Account),
      ExecutableDeployItem.to_contract_hash_key (.ModuleBytes mb args) account =
        some (.ok none)) ∧
    (∀ (args : Bytes) (account : Account),
      ExecutableDeployItem.to_contract_hash_key (.TransferToAccount args) account = none) :=
  ⟨fun _ _ _ => rfl, fun _ _ => rfl⟩

/-- Claim C2: for the hash-addressed variants, `to_contract_hash_key`
returns `Ok(Some(key))` with the key built directly from the embedded
hash; it never fails and its result is independent of the account. -/
theorem hash_addressed_resolution :
    ∀ (h : ContractHash) (ver : Option ContractVersion) (ep : String) (args : Bytes)
      (account account' : Account),
      ExecutableDeployItem.to_contract_hash_key (.StoredContractByHash h ep args) account =
        some (.ok (some (Key.hash h))) ∧
      ExecutableDeployItem.to_contract_hash_key
          (.StoredVersionedContractByHash h ver ep args) account =
        some (.ok (some (Key.hash h))) ∧
      ExecutableDeployItem.to_contract_hash_key (.StoredContractByHash h ep args) account =
        ExecutableDeployItem.to_contract_hash_key (.StoredContractByHash h ep args) account' ∧
      ExecutableDeployItem.to_contract_hash_key
          (.StoredVersionedContractByHash h ver ep args) account =
        ExecutableDeployItem.to_contract_hash_key
          (.StoredVersionedContractByHash h ver ep args) account' :=
  fun _ _ _ _ _ _ => ⟨rfl, rfl, rfl, rfl⟩

/-- Claim C3: for the name-addressed variants, resolution fails with
`NamedKeyNotFound(name)` exactly when `name` is absent from the account's
capability table, and otherwise returns the stored key; the table itself
is left unchanged. -/
theorem name_addressed_resolution :
    ∀ (name ep : String) (ver : Option ContractVersion) (args : Bytes) (account : Account),
      (ExecutableDeployItem.to_contract_hash_key (.StoredContractByName name ep args) account =
          some (.error (.Exec (.NamedKeyNotFound name))) ↔
        NamedKeys.get account.named_keys name = none) ∧
      (∀ k, NamedKeys.get account.named_keys name = some k →
        ExecutableDeployItem.to_contract_hash_key (.StoredContractByName name ep args) account =
          some (.ok (some k))) ∧
      (ExecutableDeployItem.to_contract_hash_key
          (.StoredVersionedContractByName name ver ep args) account =
          some (.error (.Exec (.NamedKeyNotFound name))) ↔
        NamedKeys.get account.named_keys name = none) ∧
      (∀ k, NamedKeys.get account.named_keys name = some k →
        ExecutableDeployItem.to_contract_hash_key
            (.StoredVersionedContractByName name ver ep args) account =
          some (.ok (some k))) ∧
      (ExecutableDeployItem.to_contract_hash_keyS
          (.StoredContractByName name ep args) account).2 = account ∧
      (ExecutableDeployItem.to_contract_hash_keyS
          (.StoredVersionedContractByName name ver ep args) account).2 = account := by
  intro name ep ver args account
  refine ⟨?_, ?_, ?_, ?_, to_contract_hash_keyS_account _ _, to_contract_hash_keyS_account _ _⟩ <;>
    [skip; intro k hk; skip; intro k hk] <;>
    cases h : NamedKeys.get account.named_keys name <;>
    simp_all [ExecutableDeployItem.to_contract_hash_key]

/-- Closed instance of C3: a present name resolves to the stored key. -/
theorem name_addressed_resolution_witness :
    ExecutableDeployItem.to_contract_hash_key (.StoredContractByName "pos" "bond" [])
        (Account.mk [("pos", Key.hash [1, 2])]) = some (.ok (some (Key.hash [1, 2]))) ∧
    ExecutableDeployItem.to_contract_hash_key (.StoredContractByName "pos" "bond" [])
        (Account.mk []) = some (.error (.Exec (.NamedKeyNotFound "pos"))) :=
  ⟨(name_addressed_resolution "pos" "bond" none [] (Account.mk [("pos", Key.hash [1, 2])])).2.1
      (Key.hash [1, 2]) (by decide),
   ((name_addressed_resolution "pos" "bond" none [] (Account.mk [])).1).2 (by decide)⟩

/-- Claim C4: `entry_point_name` returns the reserved default identifier
for `ModuleBytes` and `TransferToAccount`, and the embedded entry-point
string verbatim (including the empty string) for the four stored
variants. -/
theorem entry_point_name_resolution :
    ∀ (mb args : Bytes) (h : ContractHash) (ph : ContractPackageHash) (name ep : String)
      (ver : Option ContractVersion),
      ExecutableDeployItem.entry_point_name (.ModuleBytes mb args) =
        DEFAULT_ENTRY_POINT_NAME ∧
      ExecutableDeployItem.entry_point_name (.TransferToAccount args) =
        DEFAULT_ENTRY_POINT_NAME ∧
      ExecutableDeployItem.entry_point_name (.StoredContractByHash h ep args) = ep ∧
      ExecutableDeployItem.entry_point_name (.StoredContractByName name ep args) = ep ∧
      ExecutableDeployItem.entry_point_name
        (.StoredVersionedContractByHash ph ver ep args) = ep ∧
      ExecutableDeployItem.entry_point_name
        (.StoredVersionedContractByName name ver ep args) = ep ∧
      ExecutableDeployItem.entry_point_name (.StoredContractByHash h "" args) = "" :=
  fun _ _ _ _ _ _ _ => ⟨rfl, rfl, rfl, rfl, rfl, rfl, rfl⟩

/-- Claim C5: `into_runtime_args` is the one codec entry point
`bytesrepr::deserialize` applied to the item's raw argument bytes,
uniformly over all six variants. -/
theorem into_runtime_args_uniform :
    ∀ (item : ExecutableDeployItem),
      ExecutableDeployItem.into_runtime_args item =
        bytesrepr.deserialize (ExecutableDeployItem.argsOf item) :=
  fun item => into_runtime_args_deserialize item

/-- Claim C7: resolution is deterministic and idempotent — running the
resolver pipeline a second time, starting from the account state the first
run left behind, reproduces the first run's result and state exactly. -/
theorem resolution_idempotent :
    ∀ (item : ExecutableDeployItem) (account : Account),
      resolveS item (resolveS item account).2 = resolveS item account ∧
      (resolveS item account).2 = account := by
  intro item account
  have h2 : (resolveS item account).2 = account := by
    simp [resolveS, to_contract_hash_keyS_account]
  exact ⟨by rw [h2], h2⟩

/-- Claim C8: the resolver never consults the optional version field — the
resolved code address is the same for any two versions (in particular for
`version: None`) — and the version is carried through unchanged on the
item for the dispatcher. -/
theorem version_passed_through :
    ∀ (ph : ContractPackageHash) (name ep : String) (ver ver' : Option ContractVersion)
      (args : Bytes) (account : Account),
      ExecutableDeployItem.to_contract_hash_key
          (.StoredVersionedContractByHash ph ver ep args) account =
        ExecutableDeployItem.to_contract_hash_key
          (.StoredVersionedContractByHash ph ver' ep args) account ∧
      ExecutableDeployItem.to_contract_hash_key
          (.StoredVersionedContractByHash ph none ep args) account =
        some (.ok (some (Key.hash ph))) ∧
      ExecutableDeployItem.to_contract_hash_key
          (.StoredVersionedContractByName name ver ep args) account =
        ExecutableDeployItem.to_contract_hash_key
          (.StoredVersionedContractByName name ver' ep args) account ∧
      ExecutableDeployItem.versionOf (.StoredVersionedContractByHash ph ver ep args) = ver ∧
      ExecutableDeployItem.versionOf (.StoredVersionedContractByName name ver ep args) = ver :=
  fun _ _ _ _ _ _ _ => ⟨rfl, rfl, rfl, rfl, rfl⟩

/-- Claim C9: resolution never mutates the account — the state-passing
rendering of `to_contract_hash_key` returns the account unchanged on every
variant, success and failure alike, while computing the same result as the
source function. -/
theorem resolution_no_mutation :
    ∀ (item : ExecutableDeployItem) (account : Account),
      (ExecutableDeployItem.to_contract_hash_keyS item account).2 = account ∧
      (ExecutableDeployItem.to_contract_hash_keyS item account).1 =
        ExecutableDeployItem.to_contract_hash_key item account :=
  fun item account =>
    ⟨to_contract_hash_keyS_account item account, to_contract_hash_keyS_fst item account⟩

/-- Claim C10: name-addressed resolution returns whatever key is stored in
the capability table, with no check that the key denotes contract code. -/
theorem name_resolution_no_kind_check :
    ∀ (name ep : String) (ver : Option ContractVersion) (args : Bytes) (account : Account)
      (k : Key),
      NamedKeys.get account.named_keys name = some k →
        ExecutableDeployItem.to_contract_hash_key (.StoredContractByName name ep args) account =
          some (.ok (some k)) ∧
        ExecutableDeployItem.to_contract_hash_key
            (.StoredVersionedContractByName name ver ep args) account =
          some (.ok (some k)) := by
  intro name ep ver args account k hk
  constructor <;> simp [ExecutableDeployItem.to_contract_hash_key, hk]

/-- Closed instance of C10: a stored purse (URef) key is returned as the
code address without complaint. -/
theorem name_resolution_no_kind_check_witness :
    ExecutableDeployItem.to_contract_hash_key (.StoredContractByName "purse" "t" [])
        (Account.mk [("purse", Key.uref [7] 1)]) = some (.ok (some (Key.uref [7] 1))) ∧
    ExecutableDeployItem.to_contract_hash_key
        (.StoredVersionedContractByName "purse" (some 3) "t" [])
        (Account.mk [("purse", Key.uref [7] 1)]) = some (.ok (some (Key.uref [7] 1))) :=
  name_resolution_no_kind_check "purse" "t" (some 3) [] (Account.mk [("purse", Key.uref [7] 1)])
    (Key.uref [7] 1) (by decide)




/-- Claim C6: malformed argument bytes — a truncation of a well-formed
payload, trailing bytes after one, or a value with an unrecognized type
tag — make `into_runtime_args` fail with a decode error; an `Except`
result is all-or-nothing, so no partially-populated mapping is ever
returned. -/
theorem into_runtime_args_malformed :
    ∀ (item : ExecutableDeployItem),
      (∀ (full : Bytes) (v : bytesrepr.RuntimeArgs) (k : Nat),
        bytesrepr.fromBytes full = .ok (v, []) → k < full.length →
        ExecutableDeployItem.argsOf item = full.take k →
        ExecutableDeployItem.into_runtime_args item = .error .EarlyEndOfStream) ∧
      (∀ (good extra : Bytes) (v : bytesrepr.RuntimeArgs),
        bytesrepr.fromBytes good = .ok (v, []) → extra ≠ [] →
        ExecutableDeployItem.argsOf item = good ++ extra →
        ExecutableDeployItem.into_runtime_args item = .error .LeftOverBytes) ∧
      (∀ (nm payload : Bytes) (t : Nat) (tail : Bytes),
        nm.length < 4294967296 → payload.length < 4294967296 →
        bytesrepr.decodeTag t = none →
        ExecutableDeployItem.argsOf item =
          bytesrepr.encU32 1 ++ (bytesrepr.encU32 nm.length ++ (nm ++
            (bytesrepr.encU32 payload.length ++ (payload ++ t :: tail)))) →
        ExecutableDeployItem.into_runtime_args item = .error .Formatting) := by
  intro item
  refine ⟨?_, ?_, ?_⟩
  · intro full v k hfull hk hargs
    rw [into_runtime_args_deserialize, hargs]
    exact bytesrepr.deserialize_truncated full v hfull k hk
  · intro good extra v hgood hx hargs
    rw [into_runtime_args_deserialize, hargs]
    exact bytesrepr.deserialize_leftover good extra v hgood hx
  · intro nm payload t tail hn hp ht hargs
    rw [into_runtime_args_deserialize, hargs]
    exact bytesrepr.deserialize_badtag nm payload t tail hn hp ht

/-- Closed instances of C6: a truncated payload, a payload with trailing
bytes, and a payload with an unrecognized value tag each fail to decode. -/
theorem into_runtime_args_malformed_witness :
    ExecutableDeployItem.into_runtime_args (.TransferToAccount [0]) =
      .error .EarlyEndOfStream ∧
    ExecutableDeployItem.into_runtime_args (.ModuleBytes [] [0, 0, 0, 0, 9]) =
      .error .LeftOverBytes ∧
    ExecutableDeployItem.into_runtime_args
        (.StoredContractByHash [1] "f" [1, 0, 0, 0, 0, 0, 0, 0, 0, 0, 0, 0, 255]) =
      .error .Formatting :=
  ⟨(into_runtime_args_malformed (.TransferToAccount [0])).1 [0, 0, 0, 0] [] 1
      (by decide) (by decide) (by decide),
   (into_runtime_args_malformed (.ModuleBytes [] [0, 0, 0, 0, 9])).2.1 [0, 0, 0, 0] [9] []
      (by decide) (by decide) (by decide),
   (into_runtime_args_malformed
        (.StoredContractByHash [1] "f" [1, 0, 0, 0, 0, 0, 0, 0, 0, 0, 0, 0, 255])).2.2
      [] [] 255 [] (by decide) (by decide) (by decide) (by decide)⟩

end CasperLabs
